import Mathlib

/-!
Verification development for the Depreciation Analytics & Cross-Filter Index
Engine of the FIPE price-history web application (`app.py`).

The relevant parts of the program are shallowly embedded:
* the relational store (brands, car models, model-years, reference months,
  car prices) becomes an explicit `Store` value of read-only lists;
* dates are day numbers (`Int`); the difference of two dates in days is
  subtraction, mirroring SQLite `julianday` differences;
* currency amounts are exact rationals (`ℚ`), mirroring the SQL arithmetic
  performed on prices (`(last - first) / first * 100 * (365.25 / Δdays)`);
* the SQL queries of `_calculate_brand_depreciation`,
  `_calculate_year_group_depreciation`, `_calculate_model_depreciation` and
  `get_vehicle_options` become list-processing functions;
* the `functools.lru_cache(maxsize=10)` on `_calculate_depreciation_analysis`
  becomes an explicit most-recently-used-first association list.

String ordering (Python `sorted`, SQLite BINARY collation; both are
code-point / byte-wise lexicographic on the ASCII data at hand) is embedded
as an executable lexicographic comparison of the characters.
-/

namespace Fipe

/-! ### Ordinal (code-point lexicographic) string comparison -/

/-- Lexicographic `≤` on character lists. -/
def lexLe : List Char → List Char → Bool
  | [], _ => true
  | _ :: _, [] => false
  | a :: as, b :: bs => decide (a < b) || (decide (a = b) && lexLe as bs)

/-- Lexicographic `<` on character lists. -/
def lexLt : List Char → List Char → Bool
  | [], [] => false
  | [], _ :: _ => true
  | _ :: _, [] => false
  | a :: as, b :: bs => decide (a < b) || (decide (a = b) && lexLt as bs)

/-- Ordinal `≤` on strings (code-point lexicographic, as Python and the
SQLite BINARY collation compare the strings at hand). -/
def strLe (a b : String) : Bool := lexLe a.data b.data

/-- Ordinal `<` on strings (code-point lexicographic). -/
def strLt (a b : String) : Bool := lexLt a.data b.data

theorem lexLe_total : ∀ a b : List Char, lexLe a b = true ∨ lexLe b a = true := by
  intro a
  induction a with
  | nil => intro b; left; rfl
  | cons x xs ih =>
      intro b
      cases b with
      | nil => right; rfl
      | cons y ys =>
          rcases lt_trichotomy x y with h | h | h
          · left; simp [lexLe, h]
          · rcases ih ys with h2 | h2
            · left; simp [lexLe, h, h2]
            · right; simp [lexLe, h.symm, h2]
          · right; simp [lexLe, h]

theorem lexLe_trans : ∀ a b c : List Char,
    lexLe a b = true → lexLe b c = true → lexLe a c = true := by
  intro a
  induction a with
  | nil => intro b c _ _; rfl
  | cons x xs ih =>
      intro b c hab hbc
      cases b with
      | nil => simp [lexLe] at hab
      | cons y ys =>
          cases c with
          | nil => simp [lexLe] at hbc
          | cons z zs =>
              simp only [lexLe, Bool.or_eq_true, Bool.and_eq_true,
                decide_eq_true_eq] at hab hbc ⊢
              rcases hab with h1 | ⟨h1, h1r⟩
              · rcases hbc with h2 | ⟨h2, h2r⟩
                · exact Or.inl (lt_trans h1 h2)
                · exact Or.inl (h2 ▸ h1)
              · rcases hbc with h2 | ⟨h2, h2r⟩
                · exact Or.inl (h1 ▸ h2)
                · exact Or.inr ⟨h1.trans h2, ih ys zs h1r h2r⟩

theorem lexLe_antisymm : ∀ a b : List Char,
    lexLe a b = true → lexLe b a = true → a = b := by
  intro a
  induction a with
  | nil =>
      intro b _ hba
      cases b with
      | nil => rfl
      | cons y ys => simp [lexLe] at hba
  | cons x xs ih =>
      intro b hab hba
      cases b with
      | nil => simp [lexLe] at hab
      | cons y ys =>
          simp only [lexLe, Bool.or_eq_true, Bool.and_eq_true,
            decide_eq_true_eq] at hab hba
          rcases hab with h1 | ⟨h1, h1r⟩
          · rcases hba with h2 | ⟨h2, h2r⟩
            · exact absurd (lt_trans h1 h2) (lt_irrefl _)
            · exact absurd (h2 ▸ h1) (lt_irrefl _)
          · rcases hba with h2 | ⟨h2, h2r⟩
            · exact absurd (h1 ▸ h2) (lt_irrefl _)
            · rw [h1, ih ys h1r h2r]

theorem lexLt_iff_lexLe_ne : ∀ a b : List Char,
    lexLt a b = true ↔ (lexLe a b = true ∧ a ≠ b) := by
  intro a
  induction a with
  | nil =>
      intro b
      cases b with
      | nil => simp [lexLt, lexLe]
      | cons y ys => simp [lexLt, lexLe]
  | cons x xs ih =>
      intro b
      cases b with
      | nil => simp [lexLt, lexLe]
      | cons y ys =>
          simp only [lexLt, lexLe, Bool.or_eq_true, Bool.and_eq_true,
            decide_eq_true_eq, ih ys, ne_eq, List.cons.injEq, not_and]
          constructor
          · rintro (h | ⟨h, h2, h3⟩)
            · exact ⟨Or.inl h, fun hxy _ => absurd (hxy ▸ h) (lt_irrefl _)⟩
            · exact ⟨Or.inr ⟨h, h2⟩, fun _ hys => h3 hys⟩
          · rintro ⟨h | ⟨h, h2⟩, hne⟩
            · exact Or.inl h
            · exact Or.inr ⟨h, h2, fun hys => hne h hys⟩

theorem strLe_total (a b : String) : strLe a b = true ∨ strLe b a = true :=
  lexLe_total a.data b.data

theorem strLe_trans {a b c : String} (h1 : strLe a b = true) (h2 : strLe b c = true) :
    strLe a c = true :=
  lexLe_trans a.data b.data c.data h1 h2

theorem strLe_antisymm {a b : String} (h1 : strLe a b = true) (h2 : strLe b a = true) :
    a = b := by
  have h := lexLe_antisymm a.data b.data h1 h2
  cases a; cases b; exact congrArg String.mk h

theorem strLt_of_strLe_ne {a b : String} (h1 : strLe a b = true) (h2 : a ≠ b) :
    strLt a b = true := by
  refine (lexLt_iff_lexLe_ne a.data b.data).2 ⟨h1, ?_⟩
  intro hd
  refine h2 ?_
  cases a; cases b; exact congrArg String.mk hd

/-- Descending ordinal comparison on strings, as sorting relation. -/
def strDescRel (a b : String) : Prop := strLe b a = true

instance : DecidableRel strDescRel := fun a b => Bool.decEq (strLe b a) true

instance : IsTotal String strDescRel :=
  ⟨fun a b => (strLe_total b a).imp id id⟩

instance : IsTrans String strDescRel :=
  ⟨fun _ _ _ h1 h2 => strLe_trans h2 h1⟩

/-- Python `sorted(·, reverse=True)` on strings. -/
def sortStrDesc (l : List String) : List String := List.insertionSort strDescRel l

/-- Python `sorted(·)` on numeric ids. -/
def sortNatAsc (l : List Nat) : List Nat := List.insertionSort (· ≤ ·) l

/-! ### First-occurrence deduplication (the Python append-if-absent loops) -/

/-- The Python idiom `if x not in acc: acc.append(x)`. -/
def insertAbsent {α : Type} [DecidableEq α] (acc : List α) (x : α) : List α :=
  if x ∈ acc then acc else acc ++ [x]

/-- First-occurrence deduplication of a list, as the Python loops build it. -/
def pyDedup {α : Type} [DecidableEq α] (l : List α) : List α :=
  l.foldl insertAbsent []

theorem mem_foldl_insertAbsent {α : Type} [DecidableEq α] :
    ∀ (l acc : List α) (x : α), x ∈ l.foldl insertAbsent acc ↔ x ∈ acc ∨ x ∈ l := by
  intro l
  induction l with
  | nil => intro acc x; simp
  | cons y ys ih =>
      intro acc x
      simp only [List.foldl_cons, ih, insertAbsent, List.mem_cons]
      by_cases hy : y ∈ acc
      · simp only [if_pos hy]
        constructor
        · rintro (h | h)
          · exact Or.inl h
          · exact Or.inr (Or.inr h)
        · rintro (h | rfl | h)
          · exact Or.inl h
          · exact Or.inl hy
          · exact Or.inr h
      · simp only [if_neg hy, List.mem_append, List.mem_singleton]
        tauto

theorem mem_pyDedup {α : Type} [DecidableEq α] (l : List α) (x : α) :
    x ∈ pyDedup l ↔ x ∈ l := by
  simp [pyDedup, mem_foldl_insertAbsent]

theorem nodup_foldl_insertAbsent {α : Type} [DecidableEq α] :
    ∀ (l acc : List α), acc.Nodup → (l.foldl insertAbsent acc).Nodup := by
  intro l
  induction l with
  | nil => intro acc h; simpa using h
  | cons y ys ih =>
      intro acc h
      simp only [List.foldl_cons]
      refine ih _ ?_
      unfold insertAbsent
      by_cases hy : y ∈ acc
      · simpa [hy] using h
      · simp [hy, List.nodup_append, h]

theorem pyDedup_nodup {α : Type} [DecidableEq α] (l : List α) : (pyDedup l).Nodup :=
  nodup_foldl_insertAbsent l [] List.nodup_nil

theorem pyDedup_toFinset {α : Type} [DecidableEq α] (l : List α) :
    (pyDedup l).toFinset = l.toFinset := by
  ext x
  simp [mem_pyDedup]

theorem pyDedup_length {α : Type} [DecidableEq α] (l : List α) :
    (pyDedup l).length = l.toFinset.card := by
  rw [← pyDedup_toFinset, List.toFinset_card_of_nodup (pyDedup_nodup l)]

/-- Arithmetic mean of a list of rationals (SQL `avg`). -/
def meanQ (l : List ℚ) : ℚ := l.sum / l.length

theorem meanQ_perm {l1 l2 : List ℚ} (h : List.Perm l1 l2) : meanQ l1 = meanQ l2 := by
  unfold meanQ
  rw [h.sum_eq, h.length_eq]

/-! ### Data model (`webapp_database_models.py`) -/

/-- `Brand`: id and brand name. -/
structure Brand where
  id : Nat
  brand_name : String
deriving DecidableEq, Repr

/-- `CarModel`: id, owning brand, model name. -/
structure CarModel where
  id : Nat
  brand_id : Nat
  model_name : String
deriving DecidableEq, Repr

/-- `ModelYear` (vehicle variant): id, owning model, and the year/fuel
description, e.g. `"2024 Flex"`. -/
structure ModelYear where
  id : Nat
  car_model_id : Nat
  year_description : String
deriving DecidableEq, Repr

/-- `CarPrice` joined with its `ReferenceMonth`: the owning variant, the
month date (day number) and the price. -/
structure CarPrice where
  model_year_id : Nat
  month_date : Int
  price : ℚ
deriving DecidableEq, Repr

/-- The read-only relational store.  `months` is the `reference_months`
table (dates only — the id plays no role in the embedded queries). -/
structure Store where
  brands : List Brand
  models : List CarModel
  years : List ModelYear
  prices : List CarPrice
  months : List Int
deriving DecidableEq, Repr

/-! ### Period Resolver (`get_latest_reference_month`) -/

/-- Maximum of a list of dates, `none` on the empty list. -/
def maxD : List Int → Option Int
  | [] => none
  | d :: ds =>
      some (match maxD ds with
            | none => d
            | some m => max d m)

/-- Minimum of a list of dates, `none` on the empty list. -/
def minD : List Int → Option Int
  | [] => none
  | d :: ds =>
      some (match minD ds with
            | none => d
            | some m => min d m)

/-- `get_latest_reference_month`: the most recent `month_date` in the
store, `none` when the `reference_months` table is empty. -/
def getLatestReferenceMonth (s : Store) : Option Int := maxD s.months

theorem maxD_isSome {l : List Int} : (maxD l).isSome ↔ l ≠ [] := by
  cases l with
  | nil => simp [maxD]
  | cons d ds => simp [maxD]

theorem maxD_mem_le {l : List Int} {m : Int} (h : maxD l = some m) :
    m ∈ l ∧ ∀ x ∈ l, x ≤ m := by
  induction l generalizing m with
  | nil => simp [maxD] at h
  | cons d ds ih =>
      simp only [maxD] at h
      cases hds : maxD ds with
      | none =>
          rw [hds] at h
          have : d = m := by simpa using h
          subst this
          have : ds = [] := by
            cases ds with
            | nil => rfl
            | cons e es => simp [maxD] at hds
          subst this
          exact ⟨List.mem_singleton_self d, by simp⟩
      | some m2 =>
          rw [hds] at h
          have hm : m = max d m2 := by simpa using h.symm
          rcases ih hds with ⟨hmem, hle⟩
          constructor
          · rcases max_choice d m2 with hc | hc
            · rw [hm, hc]; exact List.mem_cons_self d ds
            · rw [hm, hc]; exact List.mem_cons_of_mem d hmem
          · intro x hx
            rcases List.mem_cons.1 hx with rfl | hx
            · rw [hm]; exact le_max_left _ _
            · rw [hm]; exact le_trans (hle x hx) (le_max_right _ _)

theorem minD_isSome {l : List Int} : (minD l).isSome ↔ l ≠ [] := by
  cases l with
  | nil => simp [minD]
  | cons d ds => simp [minD]

theorem minD_mem_le {l : List Int} {m : Int} (h : minD l = some m) :
    m ∈ l ∧ ∀ x ∈ l, m ≤ x := by
  induction l generalizing m with
  | nil => simp [minD] at h
  | cons d ds ih =>
      simp only [minD] at h
      cases hds : minD ds with
      | none =>
          rw [hds] at h
          have : d = m := by simpa using h
          subst this
          have : ds = [] := by
            cases ds with
            | nil => rfl
            | cons e es => simp [minD] at hds
          subst this
          exact ⟨List.mem_singleton_self d, by simp⟩
      | some m2 =>
          rw [hds] at h
          have hm : m = min d m2 := by simpa using h.symm
          rcases ih hds with ⟨hmem, hle⟩
          constructor
          · rcases min_choice d m2 with hc | hc
            · rw [hm, hc]; exact List.mem_cons_self d ds
            · rw [hm, hc]; exact List.mem_cons_of_mem d hmem
          · intro x hx
            rcases List.mem_cons.1 hx with rfl | hx
            · rw [hm]; exact min_le_left _ _
            · rw [hm]; exact le_trans (min_le_right _ _) (hle x hx)

/-! ### Per-variant windowed reduction

The shared `first_price_sq` subquery of the three `_calculate_*` helpers:
group the in-window price rows of each `ModelYear`, keep the groups with
`min(month_date) < max(month_date)`, and join back the price at the first
and at the last date. -/

/-- The in-window `(month_date, price)` rows of one variant:
`ReferenceMonth.month_date >= start_date` and `<= end_date`, grouped by
`CarPrice.model_year_id`. -/
def inWindowRows (s : Store) (startD endD : Int) (vid : Nat) : List (Int × ℚ) :=
  (s.prices.filter fun p =>
      p.model_year_id == vid && decide (startD ≤ p.month_date) &&
        decide (p.month_date ≤ endD)).map
    fun p => (p.month_date, p.price)

/-- The price of one of the rows at the given date (the join of the
`first_prices` / `last_prices` subqueries back onto `CarPrice`; by the
one-price-per-(variant, month) upstream invariant the date determines it). -/
def priceAt (rows : List (Int × ℚ)) (d : Int) : Option ℚ :=
  (rows.find? fun q => q.1 == d).map fun q => q.2

/-- The windowed observation of one variant: first/last in-window dates and
the prices at them, `none` unless `min(month_date) < max(month_date)`
(the `HAVING` clause — at least two distinct in-window dates). -/
structure Obs where
  first_date : Int
  last_date : Int
  first_price : ℚ
  last_price : ℚ
deriving DecidableEq, Repr

/-- Computes the `first_price_sq`/`first_prices`/`last_prices` join for a
single variant. -/
def variantObs (s : Store) (startD endD : Int) (vid : Nat) : Option Obs :=
  let rows := inWindowRows s startD endD vid
  match minD (rows.map fun q => q.1), maxD (rows.map fun q => q.1) with
  | some fd, some ld =>
      if fd < ld then
        match priceAt rows fd, priceAt rows ld with
        | some fp, some lp => some ⟨fd, ld, fp, lp⟩
        | _, _ => none
      else none
  | _, _ => none

/-- The annualized depreciation rate of one observation:
`((last_price - first_price) / first_price) * 100 *
(365.25 / (julianday(last_date) - julianday(first_date)))`. -/
def annualRate (o : Obs) : ℚ :=
  ((o.last_price - o.first_price) / o.first_price) * 100 *
    ((1461 / 4 : ℚ) / (((o.last_date : ℚ) - (o.first_date : ℚ))))

/-- The rate a variant contributes to the aggregates, if it qualifies. -/
def variantRate (s : Store) (startD endD : Int) (vid : Nat) : Option ℚ :=
  (variantObs s startD endD vid).map annualRate

/-- Whether a variant qualifies (contributes a rate). -/
def qualifies (s : Store) (startD endD : Int) (vid : Nat) : Bool :=
  (variantObs s startD endD vid).isSome

/-- The rate of a qualifying variant (junk value `0` otherwise). -/
def rateOf (s : Store) (startD endD : Int) (vid : Nat) : ℚ :=
  (variantRate s startD endD vid).getD 0

theorem mem_inWindowRows {s : Store} {ws we : Int} {vid : Nat} {d : Int} {p : ℚ} :
    (d, p) ∈ inWindowRows s ws we vid ↔
      (⟨vid, d, p⟩ : CarPrice) ∈ s.prices ∧ ws ≤ d ∧ d ≤ we := by
  unfold inWindowRows
  simp only [List.mem_map, List.mem_filter, Bool.and_eq_true, beq_iff_eq,
    decide_eq_true_eq, Prod.mk.injEq]
  constructor
  · rintro ⟨cp, ⟨hmem, ⟨hvid, h1⟩, h2⟩, hd, hp⟩
    have : cp = ⟨vid, d, p⟩ := by
      cases cp; simp_all
    rw [this] at hmem
    exact ⟨hmem, hd ▸ h1, hd ▸ h2⟩
  · rintro ⟨hmem, h1, h2⟩
    exact ⟨⟨vid, d, p⟩, ⟨hmem, ⟨rfl, h1⟩, h2⟩, rfl, rfl⟩

theorem date_mem_inWindowRows {s : Store} {ws we : Int} {vid : Nat} {cp : CarPrice}
    (hmem : cp ∈ s.prices) (hvid : cp.model_year_id = vid)
    (h1 : ws ≤ cp.month_date) (h2 : cp.month_date ≤ we) :
    cp.month_date ∈ (inWindowRows s ws we vid).map fun q => q.1 := by
  refine List.mem_map.2 ⟨(cp.month_date, cp.price), ?_, rfl⟩
  refine mem_inWindowRows.2 ⟨?_, h1, h2⟩
  have : cp = ⟨vid, cp.month_date, cp.price⟩ := by cases cp; simp_all
  exact this ▸ hmem

theorem priceAt_isSome {rows : List (Int × ℚ)} {d : Int}
    (h : d ∈ rows.map fun q => q.1) : ∃ p, priceAt rows d = some p := by
  unfold priceAt
  rcases List.mem_map.1 h with ⟨q, hq, hd⟩
  have : (rows.find? fun q => q.1 == d).isSome := by
    refine List.find?_isSome.2 ⟨q, hq, ?_⟩
    simp [hd]
  rcases Option.isSome_iff_exists.1 this with ⟨q2, hq2⟩
  exact ⟨q2.2, by rw [hq2]; rfl⟩

theorem priceAt_eq_some {rows : List (Int × ℚ)} {d : Int} {p : ℚ}
    (h : priceAt rows d = some p) : (d, p) ∈ rows := by
  unfold priceAt at h
  cases hf : rows.find? fun q => q.1 == d with
  | none => rw [hf] at h; simp at h
  | some q =>
      rw [hf] at h
      have hq1 : q.1 = d := by
        have := List.find?_some hf
        simpa using this
      have hq2 : q.2 = p := by simpa using h
      have hqmem := List.mem_of_find?_eq_some hf
      have : q = (d, p) := by
        cases q; simp_all
      exact this ▸ hqmem

/-- Characterization of a successful per-variant reduction: the observation
consists of genuine in-window price rows of the variant, its first date is
the least and its last date the greatest in-window date, and they are
distinct. -/
theorem variantObs_spec {s : Store} {ws we : Int} {vid : Nat} {o : Obs}
    (h : variantObs s ws we vid = some o) :
    ((⟨vid, o.first_date, o.first_price⟩ : CarPrice) ∈ s.prices ∧
        ws ≤ o.first_date ∧ o.first_date ≤ we) ∧
      ((⟨vid, o.last_date, o.last_price⟩ : CarPrice) ∈ s.prices ∧
        ws ≤ o.last_date ∧ o.last_date ≤ we) ∧
      o.first_date < o.last_date ∧
      (∀ cp ∈ s.prices, cp.model_year_id = vid → ws ≤ cp.month_date →
        cp.month_date ≤ we →
          o.first_date ≤ cp.month_date ∧ cp.month_date ≤ o.last_date) := by
  simp only [variantObs] at h
  split at h
  · next fd ld hmin hmax =>
      split at h
      · next hlt =>
          split at h
          · next fp lp hfp hlp =>
              have ho : o = ⟨fd, ld, fp, lp⟩ := by simpa using h.symm
              subst ho
              have hfrow := mem_inWindowRows.1 (priceAt_eq_some hfp)
              have hlrow := mem_inWindowRows.1 (priceAt_eq_some hlp)
              refine ⟨hfrow, hlrow, hlt, ?_⟩
              intro cp hcp hvid h1 h2
              have hd := date_mem_inWindowRows hcp hvid h1 h2
              exact ⟨(minD_mem_le hmin).2 _ hd, (maxD_mem_le hmax).2 _ hd⟩
          · next => simp at h
      · next => simp at h
  · next => simp at h

/-- A variant qualifies exactly when it has price rows at two distinct
in-window dates. -/
theorem qualifies_iff {s : Store} {ws we : Int} {vid : Nat} :
    qualifies s ws we vid = true ↔
      ∃ p1 ∈ s.prices, ∃ p2 ∈ s.prices,
        p1.model_year_id = vid ∧ p2.model_year_id = vid ∧
        ws ≤ p1.month_date ∧ p1.month_date ≤ we ∧
        ws ≤ p2.month_date ∧ p2.month_date ≤ we ∧
        p1.month_date < p2.month_date := by
  constructor
  · intro h
    rcases Option.isSome_iff_exists.1 h with ⟨o, ho⟩
    rcases variantObs_spec ho with ⟨⟨hf, hf1, hf2⟩, ⟨hl, hl1, hl2⟩, hlt, _⟩
    exact ⟨⟨vid, o.first_date, o.first_price⟩, hf,
      ⟨vid, o.last_date, o.last_price⟩, hl, rfl, rfl, hf1, hf2, hl1, hl2, hlt⟩
  · rintro ⟨p1, hp1, p2, hp2, hv1, hv2, h1a, h1b, h2a, h2b, hlt⟩
    simp only [qualifies, variantObs]
    have hd1 : p1.month_date ∈ (inWindowRows s ws we vid).map fun q => q.1 :=
      date_mem_inWindowRows hp1 hv1 h1a h1b
    have hd2 : p2.month_date ∈ (inWindowRows s ws we vid).map fun q => q.1 :=
      date_mem_inWindowRows hp2 hv2 h2a h2b
    have hne : ((inWindowRows s ws we vid).map fun q => q.1) ≠ [] :=
      List.ne_nil_of_mem hd1
    rcases Option.isSome_iff_exists.1 (minD_isSome.2 hne) with ⟨fd, hmin⟩
    rcases Option.isSome_iff_exists.1 (maxD_isSome.2 hne) with ⟨ld, hmax⟩
    have hflt : fd < ld :=
      lt_of_le_of_lt ((minD_mem_le hmin).2 _ hd1)
        (lt_of_lt_of_le hlt ((maxD_mem_le hmax).2 _ hd2))
    rcases priceAt_isSome ((minD_mem_le hmin).1) with ⟨fp, hfp⟩
    rcases priceAt_isSome ((maxD_mem_le hmax).1) with ⟨lp, hlp⟩
    simp [hmin, hmax, if_pos hflt, hfp, hlp]

/-! ### Aggregation (`_calculate_brand_depreciation`,
`_calculate_year_group_depreciation`, `_calculate_model_depreciation`)

The SQL output rows carry `round(rate, 2)` / `round(100 + rate, 1)` for
presentation; the embedding keeps the exact aggregated rational, which is
what the claims quantify over. -/

/-- One brand row of the analysis. -/
structure BrandRowR where
  brand_id : Nat
  brand_name : String
  sample_size : Nat
  avg_rate : ℚ
deriving DecidableEq, Repr

/-- One year-group (age-bucket) row of the analysis. -/
structure YearGroupRowR where
  year_range : String
  sample_size : Nat
  avg_rate : ℚ
deriving DecidableEq, Repr

/-- One model row of the brand-scoped analysis. -/
structure ModelRowR where
  model_id : Nat
  model_name : String
  sample_size : Nat
  avg_rate : ℚ
deriving DecidableEq, Repr

/-- The qualifying variants of one car model (the join
`CarModel.years ⋈ first_price_sq`). -/
def modelQualYears (s : Store) (ws we : Int) (mid : Nat) : List ModelYear :=
  s.years.filter fun y => y.car_model_id == mid && qualifies s ws we y.id

/-- The qualifying variants of one brand, in join order
(`CarModel.brand ⋈ CarModel.years ⋈ first_price_sq`). -/
def brandJoinYears (s : Store) (ws we : Int) (bid : Nat) : List ModelYear :=
  (s.models.filter fun m => m.brand_id == bid).flatMap fun m =>
    modelQualYears s ws we m.id

/-- Sorting relation: descending by average rate (`order_by(avg(...).desc())`). -/
def brandDescRel (r1 r2 : BrandRowR) : Prop := r2.avg_rate ≤ r1.avg_rate

instance : DecidableRel brandDescRel := fun r1 r2 => Rat.instDecidableLe r2.avg_rate r1.avg_rate

/-- The aggregated row of one brand: `count(distinct CarModel.id)` over the
qualifying join rows is the sample size, `avg` of the annualized rates the
average; `none` when the `HAVING count(distinct CarModel.id) >= 3` clause
drops the group. -/
def brandRow (s : Store) (ws we : Int) (b : Brand) : Option BrandRowR :=
  let vs := brandJoinYears s ws we b.id
  let mids := pyDedup (vs.map fun y => y.car_model_id)
  if 3 ≤ mids.length then
    some ⟨b.id, b.brand_name, mids.length, meanQ (vs.map fun y => rateOf s ws we y.id)⟩
  else none

/-- `_calculate_brand_depreciation`: per brand, the qualifying variants give
the rows; brands with fewer than 3 distinct qualifying models are dropped;
sorted descending by average annual rate. -/
def calculateBrandDepreciation (s : Store) (ws we : Int) : List BrandRowR :=
  List.insertionSort brandDescRel (s.brands.filterMap (brandRow s ws we))

/-- SQLite `CAST(t AS INTEGER)`: skip leading spaces, optional sign, then
the leading run of decimal digits (0 when there is none). -/
def castTextInt (t : String) : Int :=
  let go : List Char → Int → Int := fun cs acc =>
    cs.foldl (fun st c =>
      match st with
      | (stopped, acc2) =>
          if stopped then (stopped, acc2)
          else if c.isDigit then (false, acc2 * 10 + ((c.toNat : Int) - 48))
          else (true, acc2)) (false, acc) |>.2
  match t.data.dropWhile fun c => c = ' ' with
  | '-' :: rest => - go rest 0
  | '+' :: rest => go rest 0
  | cs => go cs 0

/-- The year-group `CASE` expression over
`cast(substr(year_description, 1, 4) as Integer)`. -/
def yearGroup (desc : String) : String :=
  let y := castTextInt (String.mk (desc.data.take 4))
  if 2020 ≤ y then "2020-2024"
  else if 2015 ≤ y then "2015-2019"
  else if 2010 ≤ y then "2010-2014"
  else if 2005 ≤ y then "2005-2009"
  else "<2005"

/-- The qualifying variants for the year-group query (joined against
`first_price_sq` only — no model/brand join). -/
def yearGroupQualYears (s : Store) (ws we : Int) : List ModelYear :=
  s.years.filter fun y => qualifies s ws we y.id

/-- `_calculate_year_group_depreciation`: group the qualifying variants by
year-group label, `count(distinct ModelYear.id)` per group, no minimum
sample size, ordered by label descending (`order_by(year_group.desc())`,
BINARY collation). -/
def calculateYearGroupDepreciation (s : Store) (ws we : Int) : List YearGroupRowR :=
  let vs := yearGroupQualYears s ws we
  let labels := sortStrDesc (pyDedup (vs.map fun y => yearGroup y.year_description))
  labels.map fun lab =>
    let group := vs.filter fun y => yearGroup y.year_description == lab
    ⟨lab, (pyDedup (group.map fun y => y.id)).length,
      meanQ (group.map fun y => rateOf s ws we y.id)⟩

/-- Sorting relation: descending by average rate. -/
def modelDescRel (r1 r2 : ModelRowR) : Prop := r2.avg_rate ≤ r1.avg_rate

instance : DecidableRel modelDescRel := fun r1 r2 => Rat.instDecidableLe r2.avg_rate r1.avg_rate

/-- `_calculate_model_depreciation`: like the brand query but grouped by
model inside one brand (the scoping `brand_id` arrives as a request
integer), with no minimum sample size. -/
def calculateModelDepreciation (s : Store) (ws we : Int) (bid : Int) : List ModelRowR :=
  List.insertionSort modelDescRel
    ((s.models.filter fun m => (m.brand_id : Int) == bid).filterMap fun m =>
      let vs := modelQualYears s ws we m.id
      if vs.isEmpty then none
      else some ⟨m.id, m.model_name, (pyDedup (vs.map fun y => y.id)).length,
        meanQ (vs.map fun y => rateOf s ws we y.id)⟩)

/-! ### The report, the analysis cache and the endpoint
(`_calculate_depreciation_analysis`, `get_depreciation_analysis`) -/

/-- The analysis report (`result` dict of `_calculate_depreciation_analysis`);
`models` is present exactly when a brand scope was supplied. -/
structure Report where
  calculated_at : Int
  start_date : Int
  end_date : Int
  period_months : Int
  brands : List BrandRowR
  year_groups : List YearGroupRowR
  models : Option (List ModelRowR)
deriving DecidableEq, Repr

/-- The body of `_calculate_depreciation_analysis` (a pure function of the
store, the clock reading and its arguments).  `period_months` embeds
`round((end_date - start_date).days / 30)`, which is exact division here
since the window length is always a multiple of 30 days. -/
def calculateDepreciationAnalysis (s : Store) (now : Int) (startD endD : Int)
    (brandId : Option Int) : Report :=
  { calculated_at := now
    start_date := startD
    end_date := endD
    period_months := (endD - startD) / 30
    brands := calculateBrandDepreciation s startD endD
    year_groups := calculateYearGroupDepreciation s startD endD
    models :=
      match brandId with
      | some b => if b = 0 then none else some (calculateModelDepreciation s startD endD b)
      | none => none }

/-- Endpoint outcome: HTTP 400, HTTP 404 or a report. -/
inductive ReportResult where
  | validationError : ReportResult
  | notFound : ReportResult
  | ok : Report → ReportResult
deriving DecidableEq, Repr

/-- The `lru_cache` key: the key string `latest_month_months_brand` together
with the derived dates determines exactly (cutoff, months, brand scope). -/
abbrev CacheKey := Int × Int × Option Int

/-- The `functools.lru_cache(maxsize=10)` state, most recently used first. -/
structure AnalysisCache where
  entries : List (CacheKey × Report)
deriving DecidableEq, Repr

/-- An empty cache. -/
def emptyCache : AnalysisCache := ⟨[]⟩

/-- Lookup in the cache. -/
def cacheFind : List (CacheKey × Report) → CacheKey → Option Report
  | [], _ => none
  | e :: es, k => if e.1 = k then some e.2 else cacheFind es k

/-- Remove a key (for the move-to-front on a cache hit). -/
def cacheDrop (es : List (CacheKey × Report)) (k : CacheKey) : List (CacheKey × Report) :=
  es.filter fun e => !(e.1 == k)

/-- Cutoff resolution, window derivation and the cache interaction of
`get_depreciation_analysis` after validation: resolve the latest reference
month fresh, derive `start_date = latest - months*30 days`, then serve from
the cache or compute and insert, evicting the least recently used entry
beyond 10 entries. -/
def serveAnalysis (s : Store) (now : Int) (c : AnalysisCache) (months : Int)
    (brandId : Option Int) : ReportResult × AnalysisCache :=
  match getLatestReferenceMonth s with
  | none => (.notFound, c)
  | some d =>
      let startD := d - 30 * months
      let key : CacheKey := (d, months, brandId)
      match cacheFind c.entries key with
      | some r => (.ok r, ⟨(key, r) :: cacheDrop c.entries key⟩)
      | none =>
          let r := calculateDepreciationAnalysis s now startD d brandId
          (.ok r, ⟨(key, r) ::
            (if 10 ≤ c.entries.length then c.entries.dropLast else c.entries)⟩)

/-- `get_depreciation_analysis`: validate `months ∈ [1, 60]`, validate the
optional brand id as a positive integer, then serve through the cache. -/
def getDepreciationAnalysis (s : Store) (now : Int) (c : AnalysisCache)
    (months : Int) (brandId : Option Int) : ReportResult × AnalysisCache :=
  if months < 1 ∨ 60 < months then (.validationError, c)
  else
    match brandId with
    | some b => if b ≤ 0 then (.validationError, c) else serveAnalysis s now c months (some b)
    | none => serveAnalysis s now c months none

/-- A cold (empty-cache) report computation. -/
def computeReportCold (s : Store) (now : Int) (months : Int)
    (brandId : Option Int) : ReportResult :=
  (getDepreciationAnalysis s now emptyCache months brandId).1

/-! ### Cross-Filter Index Builder (`get_vehicle_options`) -/

/-- The cross-filter index.  The Python dicts are embedded as total lookup
functions; a key the loops never wrote maps to `[]` / `none`, matching a
lookup miss on the dict. -/
structure CrossFilterIndex where
  models : List (Nat × String)
  year_descriptions : List String
  model_to_years : Nat → List String
  year_to_models : String → List Nat
  model_year_lookup : Nat → String → Option Nat

/-- The all-empty index returned when the store has no reference months. -/
def emptyIndex : CrossFilterIndex :=
  ⟨[], [], fun _ => [], fun _ => [], fun _ _ => none⟩

/-- Whether a variant has a price row in the given month. -/
def hasPriceAt (s : Store) (d : Int) (yid : Nat) : Bool :=
  s.prices.any fun p => p.model_year_id == yid && p.month_date == d

/-- Sorting relation for the models list (`order_by(CarModel.model_name)`). -/
def modelNameAscRel (m1 m2 : CarModel) : Prop :=
  strLe m1.model_name m2.model_name = true

instance : DecidableRel modelNameAscRel :=
  fun m1 m2 => Bool.decEq (strLe m1.model_name m2.model_name) true

/-- `get_vehicle_options`: models of the brand priced in the latest month,
the distinct year descriptions sorted descending, and the three cross-filter
maps.  `model_year_lookup` resolves a (model, description) pair to the
variant id; the upstream uniqueness invariant makes the pair unique, so the
first match embeds the Python dict assignment. -/
def getVehicleOptions (s : Store) (brandId : Nat) : CrossFilterIndex :=
  match getLatestReferenceMonth s with
  | none => emptyIndex
  | some d =>
      let modelYears := s.years.filter fun y =>
        (s.models.any fun m => m.id == y.car_model_id && m.brand_id == brandId) &&
          hasPriceAt s d y.id
      let modelsL := List.insertionSort modelNameAscRel (s.models.filter fun m =>
        m.brand_id == brandId &&
          (s.years.any fun y => y.car_model_id == m.id && hasPriceAt s d y.id))
      { models := modelsL.map fun m => (m.id, m.model_name)
        year_descriptions :=
          sortStrDesc (pyDedup (modelYears.map fun y => y.year_description))
        model_to_years := fun mid =>
          sortStrDesc (pyDedup ((modelYears.filter fun y =>
            y.car_model_id == mid).map fun y => y.year_description))
        year_to_models := fun desc =>
          sortNatAsc (pyDedup ((modelYears.filter fun y =>
            y.year_description == desc).map fun y => y.car_model_id))
        model_year_lookup := fun mid desc =>
          (modelYears.find? fun y =>
            y.car_model_id == mid && y.year_description == desc).map fun y => y.id }

/-! ### Spec-side notions for the brand rows -/

/-- Whether a model has at least one qualifying variant. -/
def modelHasQualifying (s : Store) (ws we : Int) (mid : Nat) : Bool :=
  s.years.any fun y => y.car_model_id == mid && qualifies s ws we y.id

/-- The qualifying variants belonging to a brand, read directly off the
store: the variant qualifies and its model is one of the brand's models. -/
def brandSpecYears (s : Store) (ws we : Int) (bid : Nat) : List ModelYear :=
  s.years.filter fun y =>
    ((s.models.filter fun mo => mo.brand_id == bid).any fun mo =>
      y.car_model_id == mo.id) && qualifies s ws we y.id

/-- The number of distinct qualifying models of a brand. -/
def brandQualModelCount (s : Store) (ws we : Int) (bid : Nat) : Nat :=
  (s.models.filter fun mo =>
    mo.brand_id == bid && modelHasQualifying s ws we mo.id).length

/-- Remove every price row of one model's variants (the store after the
model's only price-point pair is deleted, when that pair is all it had). -/
def removeModelPrices (s : Store) (mid : Nat) : Store :=
  { s with prices := s.prices.filter fun p =>
      !(s.years.any fun y => y.id == p.model_year_id && y.car_model_id == mid) }

/-! ### Concrete stores used by witnesses and counterexamples

Day numbers (days since 1970-01-01): 2023-01-01 = 19358, 2023-07-01 = 19539,
2024-01-01 = 19723. -/

/-- Scenario-A store: one brand with three models; variant `10` ("V") has
exactly the price points (2023-01, 50000) and (2024-01, 45000); the two
sibling models are priced at 2023-07 and 2024-01; the cutoff is 2024-01. -/
def stA : Store :=
  { brands := [⟨1, "Acme"⟩]
    models := [⟨1, 1, "Alpha"⟩, ⟨2, 1, "Beta"⟩, ⟨3, 1, "Gamma"⟩]
    years := [⟨10, 1, "2020 Flex"⟩, ⟨20, 2, "2021 Flex"⟩, ⟨30, 3, "2022 Flex"⟩]
    prices := [⟨10, 19358, 50000⟩, ⟨10, 19723, 45000⟩,
               ⟨20, 19539, 40000⟩, ⟨20, 19723, 38000⟩,
               ⟨30, 19539, 30000⟩, ⟨30, 19723, 29000⟩]
    months := [19358, 19539, 19723] }

/-- A store with two qualifying variants whose descriptions bucket to
`"<2005"` and `"2020-2024"`. -/
def stY : Store :=
  { brands := []
    models := []
    years := [⟨1, 1, "2004 Gas"⟩, ⟨2, 1, "2020 Flex"⟩]
    prices := [⟨1, 100, 1000⟩, ⟨1, 130, 900⟩, ⟨2, 100, 2000⟩, ⟨2, 130, 1900⟩]
    months := [100, 130] }

/-- The empty store. -/
def stEmpty : Store := ⟨[], [], [], [], []⟩

/-! ### Claims -/

/-- C1: for every price store and every `windowMonths ∈ [1, 60]`, a variant
contributes a rate iff it has price rows at two distinct period dates inside
`[cutoff - 30*windowMonths days, cutoff]`, and the contributed rate is
`((lastPrice - firstPrice)/firstPrice) * 100 * (365.25 / (lastDate -
firstDate in days))` where first/last are the prices at the extremal
in-window dates. -/
theorem depreciation_per_variant_reduction (s : Store) (m d : Int)
    (hm1 : 1 ≤ m) (hm2 : m ≤ 60) (hd : getLatestReferenceMonth s = some d)
    (vid : Nat) :
    ((∃ r, variantRate s (d - 30 * m) d vid = some r) ↔
      ∃ p1 ∈ s.prices, ∃ p2 ∈ s.prices,
        p1.model_year_id = vid ∧ p2.model_year_id = vid ∧
        d - 30 * m ≤ p1.month_date ∧ p1.month_date ≤ d ∧
        d - 30 * m ≤ p2.month_date ∧ p2.month_date ≤ d ∧
        p1.month_date < p2.month_date) ∧
    (∀ r, variantRate s (d - 30 * m) d vid = some r →
      ∃ fd ld fp lp,
        (⟨vid, fd, fp⟩ : CarPrice) ∈ s.prices ∧
        (⟨vid, ld, lp⟩ : CarPrice) ∈ s.prices ∧
        d - 30 * m ≤ fd ∧ fd ≤ d ∧ d - 30 * m ≤ ld ∧ ld ≤ d ∧ fd < ld ∧
        (∀ cp ∈ s.prices, cp.model_year_id = vid → d - 30 * m ≤ cp.month_date →
          cp.month_date ≤ d → fd ≤ cp.month_date ∧ cp.month_date ≤ ld) ∧
        r = ((lp - fp) / fp) * 100 * ((1461 / 4 : ℚ) / ((ld : ℚ) - (fd : ℚ)))) := by
  constructor
  · rw [← qualifies_iff]
    unfold variantRate qualifies
    constructor
    · rintro ⟨r, hr⟩
      rcases Option.map_eq_some.1 hr with ⟨o, ho, _⟩
      simp [ho]
    · intro h
      rcases Option.isSome_iff_exists.1 h with ⟨o, ho⟩
      exact ⟨annualRate o, by simp [ho]⟩
  · intro r hr
    rcases Option.map_eq_some.1 hr with ⟨o, ho, hrate⟩
    rcases variantObs_spec ho with ⟨⟨hf, hf1, hf2⟩, ⟨hl, hl1, hl2⟩, hlt, hbound⟩
    exact ⟨o.first_date, o.last_date, o.first_price, o.last_price, hf, hl,
      hf1, hf2, hl1, hl2, hlt, hbound, hrate.symm ▸ rfl⟩

/-- Witness for C1 at the Scenario-A store with a 13-month window. -/
theorem depreciation_per_variant_reduction_witness :
    (1 ≤ (13 : ℤ) ∧ (13 : ℤ) ≤ 60 ∧ getLatestReferenceMonth stA = some 19723) ∧
    ((∃ r, variantRate stA (19723 - 30 * 13) 19723 10 = some r) ↔
      ∃ p1 ∈ stA.prices, ∃ p2 ∈ stA.prices,
        p1.model_year_id = 10 ∧ p2.model_year_id = 10 ∧
        19723 - 30 * 13 ≤ p1.month_date ∧ p1.month_date ≤ 19723 ∧
        19723 - 30 * 13 ≤ p2.month_date ∧ p2.month_date ≤ 19723 ∧
        p1.month_date < p2.month_date) :=
  ⟨⟨by decide, by decide, rfl⟩,
    (depreciation_per_variant_reduction stA 13 19723 (by decide) (by decide)
      rfl 10).1⟩

/-! ### Helper lemmas about the endpoint and the cache -/

theorem serveAnalysis_fst_ne_validationError (s : Store) (now : Int)
    (c : AnalysisCache) (m : Int) (b : Option Int) :
    (serveAnalysis s now c m b).1 ≠ .validationError := by
  unfold serveAnalysis
  cases hl : getLatestReferenceMonth s with
  | none => simp
  | some d =>
      cases hc : cacheFind c.entries (d, m, b) with
      | none => simp [hc]
      | some r => simp [hc]

theorem computeReportCold_none_eq (s : Store) (now : Int) (m d : Int)
    (hm1 : 1 ≤ m) (hm2 : m ≤ 60) (hd : getLatestReferenceMonth s = some d) :
    computeReportCold s now m none =
      .ok (calculateDepreciationAnalysis s now (d - 30 * m) d none) := by
  unfold computeReportCold getDepreciationAnalysis
  rw [if_neg (by omega)]
  simp [serveAnalysis, hd, emptyCache, cacheFind]

theorem computeReportCold_some_eq (s : Store) (now : Int) (m b d : Int)
    (hm1 : 1 ≤ m) (hm2 : m ≤ 60) (hb : 0 < b)
    (hd : getLatestReferenceMonth s = some d) :
    computeReportCold s now m (some b) =
      .ok (calculateDepreciationAnalysis s now (d - 30 * m) d (some b)) := by
  unfold computeReportCold getDepreciationAnalysis
  have h1 : ¬(m < 1 ∨ 60 < m) := by omega
  have h2 : ¬ b ≤ 0 := by omega
  simp [h1, h2, serveAnalysis, hd, emptyCache, cacheFind]

theorem cacheFind_some {es : List (CacheKey × Report)} {k : CacheKey} {r : Report}
    (h : cacheFind es k = some r) : (k, r) ∈ es := by
  induction es with
  | nil => simp [cacheFind] at h
  | cons e es ih =>
      unfold cacheFind at h
      by_cases he : e.1 = k
      · rw [if_pos he] at h
        have : e = (k, r) := by
          cases e; simp_all
        exact this ▸ List.mem_cons_self _ _
      · rw [if_neg he] at h
        exact List.mem_cons_of_mem _ (ih h)

theorem cacheFind_none {es : List (CacheKey × Report)} {k : CacheKey}
    (h : cacheFind es k = none) : ∀ e ∈ es, e.1 ≠ k := by
  induction es with
  | nil => simp
  | cons e es ih =>
      unfold cacheFind at h
      by_cases he : e.1 = k
      · rw [if_pos he] at h; simp at h
      · rw [if_neg he] at h
        intro e2 he2
        rcases List.mem_cons.1 he2 with rfl | he2
        · exact he
        · exact ih h e2 he2

theorem cacheFind_cons_self (es : List (CacheKey × Report)) (k : CacheKey)
    (r : Report) : cacheFind ((k, r) :: es) k = some r := by
  simp [cacheFind]

/-! ### Strictness of the sorted outputs -/

theorem sortNatAsc_strict {l : List Nat} (h : l.Nodup) :
    (sortNatAsc l).Pairwise (· < ·) := by
  have hs : (sortNatAsc l).Pairwise (· ≤ ·) :=
    List.sorted_insertionSort (· ≤ ·) l
  have hn : (sortNatAsc l).Pairwise (· ≠ ·) :=
    ((List.perm_insertionSort (· ≤ ·) l).nodup_iff.2 h : (sortNatAsc l).Nodup)
  exact (hs.and hn).imp fun hab => lt_of_le_of_ne hab.1 hab.2

theorem sortStrDesc_strict {l : List String} (h : l.Nodup) :
    (sortStrDesc l).Pairwise fun a b => strLt b a = true := by
  have hs : (sortStrDesc l).Pairwise strDescRel :=
    List.sorted_insertionSort strDescRel l
  have hn : (sortStrDesc l).Pairwise (· ≠ ·) :=
    ((List.perm_insertionSort strDescRel l).nodup_iff.2 h : (sortStrDesc l).Nodup)
  exact (hs.and hn).imp fun hab => strLt_of_strLe_ne hab.1 (Ne.symm hab.2)

/-! ### C6 / C7: validation and empty-store behavior -/

/-- C6: the endpoint reports a validation failure exactly for
`windowMonths` outside `[1, 60]` (with the brand scope absent or itself
valid); in particular `months = 61` fails and no in-range value does. -/
theorem window_months_validation (s : Store) (now : Int) (c : AnalysisCache)
    (m : Int) (b : Option Int)
    (hb : b = none ∨ ∃ x, b = some x ∧ 0 < x) :
    (getDepreciationAnalysis s now c m b).1 = .validationError ↔
      (m < 1 ∨ 60 < m) := by
  unfold getDepreciationAnalysis
  by_cases hm : m < 1 ∨ 60 < m
  · rw [if_pos hm]
    simpa using hm
  · rw [if_neg hm]
    rcases hb with rfl | ⟨x, rfl, hx⟩
    · simpa [hm] using serveAnalysis_fst_ne_validationError s now c m none
    · have hxle : ¬ x ≤ 0 := by omega
      simpa [hm, hxle] using serveAnalysis_fst_ne_validationError s now c m (some x)

/-- Witness for C6 at `months = 61` on the Scenario-A store. -/
theorem window_months_validation_witness :
    (none = (none : Option Int) ∨ ∃ x, (none : Option Int) = some x ∧ 0 < x) ∧
    ((getDepreciationAnalysis stA 0 emptyCache 61 none).1 = .validationError ↔
      ((61 : ℤ) < 1 ∨ 60 < (61 : ℤ))) :=
  ⟨Or.inl rfl, window_months_validation stA 0 emptyCache 61 none (Or.inl rfl)⟩

/-- C7: on a store with no reference months, `get_vehicle_options` returns
the index with all structures empty (not an error) while the depreciation
endpoint (with otherwise valid arguments) reports not-found. -/
theorem empty_store_behavior (s : Store) (hp : s.months = []) (brandId : Nat)
    (now : Int) (c : AnalysisCache) (m : Int) (b : Option Int)
    (hm1 : 1 ≤ m) (hm2 : m ≤ 60)
    (hb : b = none ∨ ∃ x, b = some x ∧ 0 < x) :
    getVehicleOptions s brandId = emptyIndex ∧
    (getVehicleOptions s brandId).models = [] ∧
    (getVehicleOptions s brandId).year_descriptions = [] ∧
    (∀ mid, (getVehicleOptions s brandId).model_to_years mid = []) ∧
    (∀ desc, (getVehicleOptions s brandId).year_to_models desc = []) ∧
    (∀ mid desc, (getVehicleOptions s brandId).model_year_lookup mid desc = none) ∧
    (getDepreciationAnalysis s now c m b).1 = .notFound := by
  have hnone : getLatestReferenceMonth s = none := by
    unfold getLatestReferenceMonth
    rw [hp]
    rfl
  have hidx : getVehicleOptions s brandId = emptyIndex := by
    unfold getVehicleOptions
    rw [hnone]
  refine ⟨hidx, by rw [hidx]; rfl, by rw [hidx]; rfl,
    fun mid => by rw [hidx]; rfl, fun desc => by rw [hidx]; rfl,
    fun mid desc => by rw [hidx]; rfl, ?_⟩
  unfold getDepreciationAnalysis
  have h1 : ¬(m < 1 ∨ 60 < m) := by omega
  rcases hb with rfl | ⟨x, rfl, hx⟩
  · simp [h1, serveAnalysis, hnone]
  · have hxle : ¬ x ≤ 0 := by omega
    simp [h1, hxle, serveAnalysis, hnone]

/-- Witness for C7 on the empty store. -/
theorem empty_store_behavior_witness :
    stEmpty.months = [] ∧
    (getVehicleOptions stEmpty 1 = emptyIndex ∧
      (getDepreciationAnalysis stEmpty 0 emptyCache 12 none).1 = .notFound) :=
  ⟨rfl,
    ⟨(empty_store_behavior stEmpty rfl 1 0 emptyCache 12 none (by decide)
        (by decide) (Or.inl rfl)).1,
      (empty_store_behavior stEmpty rfl 1 0 emptyCache 12 none (by decide)
        (by decide) (Or.inl rfl)).2.2.2.2.2.2⟩⟩

/-! ### C3: Scenario A -/

/-- C3 counterexample: on the Scenario-A store (V priced at 2023-01 and
2024-01, cutoff 2024-01), `computeReport(12, null)` does not include V in
any brand row at all: the 2023-01 point lies before
`cutoff - 12×30 days = 2023-01-06`, V has a single in-window point and is
excluded, and the brand-row list is empty. -/
theorem scenario_a_counterexample :
    ∃ r, computeReportCold stA 0 12 none = .ok r ∧ r.brands = [] ∧
      variantRate stA (19723 - 30 * 12) 19723 10 = none :=
  ⟨calculateDepreciationAnalysis stA 0 (19723 - 30 * 12) 19723 none, rfl, rfl, rfl⟩

/-- C3 amended: with a 13-month window V qualifies; its annualized rate is
`((45000-50000)/50000)*100*(365.25/365) = -1461/146 ≈ -10.01` (the spec's
`≈ -9.99` evaluates the stated formula incorrectly), and V's model counts
into its brand's row, whose sample size is 3. -/
theorem scenario_a_amended :
    variantRate stA (19723 - 30 * 13) 19723 10 = some (-1461 / 146) ∧
    ∃ r, computeReportCold stA 0 13 none = .ok r ∧
      (r.brands.map fun row => (row.brand_id, row.sample_size)) = [(1, 3)] := by
  constructor
  · have h : variantRate stA (19723 - 30 * 13) 19723 10 =
        some (annualRate ⟨19358, 19723, 50000, 45000⟩) := rfl
    rw [h]
    congr 1
    unfold annualRate
    norm_num
  · exact ⟨calculateDepreciationAnalysis stA 0 (19723 - 30 * 13) 19723 none,
      rfl, rfl⟩

/-! ### C4: strict ordering of the cross-filter structures -/

/-- C4: in the index built by `get_vehicle_options`, every list of model
ids in `year_to_models` is strictly ascending by numeric id (hence without
duplicates), and `year_descriptions` is strictly descending under ordinal
string comparison (hence without duplicates). -/
theorem cross_filter_index_sorted (s : Store) (brandId : Nat) (desc : String) :
    ((getVehicleOptions s brandId).year_to_models desc).Pairwise (· < ·) ∧
    ((getVehicleOptions s brandId).year_descriptions).Pairwise
      (fun a b => strLt b a = true) := by
  unfold getVehicleOptions
  cases hl : getLatestReferenceMonth s with
  | none => constructor <;> simp [emptyIndex]
  | some d =>
      constructor
      · exact sortNatAsc_strict (pyDedup_nodup _)
      · exact sortStrDesc_strict (pyDedup_nodup _)

/-! ### C10: the brand scope influences only the model rows -/

/-- C10: with a valid window and a valid brand id, the brand rows and the
age-bucket rows of the scoped report coincide with those of the unscoped
report — the scope only adds the model rows. -/
theorem brand_scope_noninterference (s : Store) (now : Int) (m b d : Int)
    (hm1 : 1 ≤ m) (hm2 : m ≤ 60) (hb : 0 < b)
    (hd : getLatestReferenceMonth s = some d) :
    ∃ r1 r2, computeReportCold s now m (some b) = .ok r1 ∧
      computeReportCold s now m none = .ok r2 ∧
      r1.brands = r2.brands ∧ r1.year_groups = r2.year_groups :=
  ⟨calculateDepreciationAnalysis s now (d - 30 * m) d (some b),
    calculateDepreciationAnalysis s now (d - 30 * m) d none,
    computeReportCold_some_eq s now m b d hm1 hm2 hb hd,
    computeReportCold_none_eq s now m d hm1 hm2 hd, rfl, rfl⟩

/-- Witness for C10 on the Scenario-A store. -/
theorem brand_scope_noninterference_witness :
    (1 ≤ (12 : ℤ) ∧ (12 : ℤ) ≤ 60 ∧ 0 < (1 : ℤ) ∧
      getLatestReferenceMonth stA = some 19723) ∧
    (∃ r1 r2, computeReportCold stA 0 12 (some 1) = .ok r1 ∧
      computeReportCold stA 0 12 none = .ok r2 ∧
      r1.brands = r2.brands ∧ r1.year_groups = r2.year_groups) :=
  ⟨⟨by decide, by decide, by decide, rfl⟩,
    brand_scope_noninterference stA 0 12 1 19723 (by decide) (by decide)
      (by decide) rfl⟩

/-! ### C8: idempotence of consecutive calls -/

/-- Forgets the wall-clock field of a report. -/
def stripTime : ReportResult → ReportResult
  | .ok r => .ok { r with calculated_at := 0 }
  | x => x

/-- C8 counterexample: two cold recomputations at different clock readings
are not equal reports — they differ in `calculated_at`
(`datetime.now().isoformat()` in the result dict). -/
theorem cold_recompute_counterexample :
    computeReportCold stA 0 12 none ≠ computeReportCold stA 1 12 none := by
  intro h
  have h2 := congrArg (fun res => match res with
    | ReportResult.ok r => r.calculated_at
    | _ => (0 : Int)) h
  exact absurd (show (0 : ℤ) = 1 from h2) (by decide)

/-- C8 amended: with identical arguments and an unchanged store, the second
of two consecutive calls is served from the cache bit-identically, and two
cold recomputations agree on everything except the `calculated_at`
timestamp (exactly equal when the clock readings coincide). -/
theorem consecutive_calls_idempotent (s : Store) (now1 now2 : Int)
    (c : AnalysisCache) (m : Int) (b : Option Int) :
    (getDepreciationAnalysis s now2
        (getDepreciationAnalysis s now1 c m b).2 m b).1 =
      (getDepreciationAnalysis s now1 c m b).1 ∧
    stripTime (computeReportCold s now1 m b) =
      stripTime (computeReportCold s now2 m b) := by
  constructor
  · unfold getDepreciationAnalysis
    by_cases hm : m < 1 ∨ 60 < m
    · simp [if_pos hm]
    · rw [if_neg hm, if_neg hm]
      have hserve : ∀ b2 : Option Int,
          (serveAnalysis s now2 (serveAnalysis s now1 c m b2).2 m b2).1 =
            (serveAnalysis s now1 c m b2).1 := by
        intro b2
        unfold serveAnalysis
        cases hl : getLatestReferenceMonth s with
        | none => simp
        | some d =>
            cases hc : cacheFind c.entries (d, m, b2) with
            | some r => simp [hc, cacheFind_cons_self]
            | none => simp [hc, cacheFind_cons_self]
      cases b with
      | none => exact hserve none
      | some x =>
          by_cases hx : x ≤ 0
          · simp [hx]
          · simpa [hx] using hserve (some x)
  · unfold computeReportCold getDepreciationAnalysis
    by_cases hm : m < 1 ∨ 60 < m
    · simp [if_pos hm]
    · rw [if_neg hm, if_neg hm]
      have hserve : ∀ b2 : Option Int,
          stripTime (serveAnalysis s now1 emptyCache m b2).1 =
            stripTime (serveAnalysis s now2 emptyCache m b2).1 := by
        intro b2
        unfold serveAnalysis
        cases hl : getLatestReferenceMonth s with
        | none => simp
        | some d => simp [emptyCache, cacheFind, stripTime,
            calculateDepreciationAnalysis]
      cases b with
      | none => exact hserve none
      | some x =>
          by_cases hx : x ≤ 0
          · simp [hx]
          · simpa [hx] using hserve (some x)

/-! ### C9: cache capacity, LRU eviction, freshness of the served cutoff -/

/-- The keys currently retained by the cache. -/
def cacheKeys (c : AnalysisCache) : List CacheKey := c.entries.map fun e => e.1

/-- Every cached report was computed under the cutoff recorded in its key
(every insertion establishes this; `end_date` is the cutoff the report was
computed with). -/
def cacheFresh (c : AnalysisCache) : Prop :=
  ∀ e ∈ c.entries, e.2.end_date = e.1.1

theorem cacheDrop_key_not_mem (es : List (CacheKey × Report)) (k : CacheKey) :
    ∀ e ∈ cacheDrop es k, e.1 ≠ k := by
  intro e he
  have := (List.mem_filter.1 he).2
  simpa using this

theorem cacheDrop_subset {es : List (CacheKey × Report)} {k : CacheKey} :
    ∀ e ∈ cacheDrop es k, e ∈ es := fun _ he => (List.mem_filter.1 he).1

/-- The cache-facing behavior of one (validated, cutoff-resolved) call:
capacity stays within 10, keys stay distinct, the freshness invariant is
preserved, any served report carries the freshly resolved cutoff, and on a
miss with a full cache exactly the least recently used (last) entry is
evicted. -/
theorem serveAnalysis_cache_props (s : Store) (now : Int) (c : AnalysisCache)
    (m : Int) (b2 : Option Int) (d : Int)
    (hlen : c.entries.length ≤ 10) (hkeys : (cacheKeys c).Nodup)
    (hfresh : cacheFresh c) (hd : getLatestReferenceMonth s = some d) :
    (serveAnalysis s now c m b2).2.entries.length ≤ 10 ∧
    (cacheKeys (serveAnalysis s now c m b2).2).Nodup ∧
    cacheFresh (serveAnalysis s now c m b2).2 ∧
    (∀ r, (serveAnalysis s now c m b2).1 = .ok r → r.end_date = d) ∧
    (cacheFind c.entries (d, m, b2) = none → c.entries.length = 10 →
      (serveAnalysis s now c m b2).2.entries =
        ((d, m, b2), calculateDepreciationAnalysis s now (d - 30 * m) d b2) ::
          c.entries.dropLast) := by
  unfold serveAnalysis
  simp only [hd]
  cases hc : cacheFind c.entries (d, m, b2) with
  | some r =>
      simp only [hc]
      have hmem : ((d, m, b2), r) ∈ c.entries := cacheFind_some hc
      have hend : r.end_date = d := hfresh _ hmem
      have hdroplt : (cacheDrop c.entries (d, m, b2)).length < c.entries.length := by
        refine List.length_filter_lt_length_iff_exists.2 ⟨_, hmem, ?_⟩
        simp
      refine ⟨?_, ?_, ?_, ?_, ?_⟩
      · simpa using by omega
      · refine List.nodup_cons.2 ⟨?_, ?_⟩
        · intro hmem2
          rcases List.mem_map.1 hmem2 with ⟨e, he, heq⟩
          exact cacheDrop_key_not_mem c.entries (d, m, b2) e he heq
        · exact ((List.filter_sublist c.entries).map
            (fun e : CacheKey × Report => e.1)).nodup hkeys
      · intro e he
        rcases List.mem_cons.1 he with rfl | he
        · exact hend
        · exact hfresh e (cacheDrop_subset e he)
      · intro r2 hr2
        have : r = r2 := by simpa using hr2
        exact this ▸ hend
      · intro hnone
        simp at hnone
  | none =>
      simp only [hc]
      have hnotmem := cacheFind_none hc
      refine ⟨?_, ?_, ?_, ?_, ?_⟩
      · by_cases h10 : 10 ≤ c.entries.length
        · have := List.length_dropLast c.entries
          simp only [if_pos h10, List.length_cons, this]
          omega
        · simp only [if_neg h10, List.length_cons]
          omega
      · have htail : ∀ e ∈ (if 10 ≤ c.entries.length then c.entries.dropLast
            else c.entries), e ∈ c.entries := by
          intro e he
          by_cases h10 : 10 ≤ c.entries.length
          · rw [if_pos h10] at he
            exact (List.dropLast_sublist c.entries).mem he
          · rwa [if_neg h10] at he
        refine List.nodup_cons.2 ⟨?_, ?_⟩
        · intro hmem2
          rcases List.mem_map.1 hmem2 with ⟨e, he, heq⟩
          exact hnotmem e (htail e he) heq
        · by_cases h10 : 10 ≤ c.entries.length
          · rw [if_pos h10]
            exact ((List.dropLast_sublist c.entries).map
              (fun e : CacheKey × Report => e.1)).nodup hkeys
          · rw [if_neg h10]
            exact hkeys
      · intro e he
        rcases List.mem_cons.1 he with rfl | he
        · rfl
        · by_cases h10 : 10 ≤ c.entries.length
          · rw [if_pos h10] at he
            exact hfresh e ((List.dropLast_sublist c.entries).mem he)
          · rw [if_neg h10] at he
            exact hfresh e he
      · intro r2 hr2
        have : calculateDepreciationAnalysis s now (d - 30 * m) d b2 = r2 := by
          simpa using hr2
        rw [← this]
        rfl
      · intro _ hlen10
        rw [if_pos (by omega)]

/-- C9: the analysis cache retains at most 10 distinct keys; when a miss
occurs on a full cache the least recently used entry (the last in
most-recently-used order) is evicted; and because the cutoff is resolved
fresh on every call and is part of the key, a served report always carries
the current cutoff as its window end — never one computed under an earlier
cutoff. -/
theorem analysis_cache_bound_lru_fresh (s : Store) (now : Int)
    (c : AnalysisCache) (m : Int) (b : Option Int) (d : Int)
    (hlen : c.entries.length ≤ 10) (hkeys : (cacheKeys c).Nodup)
    (hfresh : cacheFresh c) (hd : getLatestReferenceMonth s = some d) :
    (getDepreciationAnalysis s now c m b).2.entries.length ≤ 10 ∧
    (cacheKeys (getDepreciationAnalysis s now c m b).2).Nodup ∧
    cacheFresh (getDepreciationAnalysis s now c m b).2 ∧
    (∀ r, (getDepreciationAnalysis s now c m b).1 = .ok r → r.end_date = d) ∧
    (cacheFind c.entries (d, m, b) = none → c.entries.length = 10 →
      ¬(m < 1 ∨ 60 < m) → (∀ x, b = some x → 0 < x) →
      (getDepreciationAnalysis s now c m b).2.entries =
        ((d, m, b), calculateDepreciationAnalysis s now (d - 30 * m) d b) ::
          c.entries.dropLast) := by
  unfold getDepreciationAnalysis
  by_cases hm : m < 1 ∨ 60 < m
  · simp only [if_pos hm]
    exact ⟨hlen, hkeys, hfresh, fun r hr => by simp at hr,
      fun _ _ hmn _ => absurd hm hmn⟩
  · rw [if_neg hm]
    cases b with
    | none =>
        have h := serveAnalysis_cache_props s now c m none d hlen hkeys hfresh hd
        exact ⟨h.1, h.2.1, h.2.2.1, h.2.2.2.1,
          fun hnone hlen10 _ _ => h.2.2.2.2 hnone hlen10⟩
    | some x =>
        by_cases hx : x ≤ 0
        · simp only [if_pos hx]
          exact ⟨hlen, hkeys, hfresh, fun r hr => by simp at hr,
            fun _ _ _ hpos => absurd (hpos x rfl) (by omega)⟩
        · simp only [if_neg hx]
          have h := serveAnalysis_cache_props s now c m (some x) d hlen hkeys hfresh hd
          exact ⟨h.1, h.2.1, h.2.2.1, h.2.2.2.1,
            fun hnone hlen10 _ _ => h.2.2.2.2 hnone hlen10⟩

/-- A dummy cached report whose window ends at the given cutoff. -/
def wReport (i : Int) : Report := ⟨0, 0, i, 0, [], [], none⟩

/-- A full (10-entry) cache satisfying the freshness invariant. -/
def wCache : AnalysisCache :=
  ⟨[((0, 1, none), wReport 0), ((1, 1, none), wReport 1),
    ((2, 1, none), wReport 2), ((3, 1, none), wReport 3),
    ((4, 1, none), wReport 4), ((5, 1, none), wReport 5),
    ((6, 1, none), wReport 6), ((7, 1, none), wReport 7),
    ((8, 1, none), wReport 8), ((9, 1, none), wReport 9)]⟩

/-- Witness for C9: a call on a full, fresh cache. -/
theorem analysis_cache_bound_lru_fresh_witness :
    (wCache.entries.length ≤ 10 ∧ (cacheKeys wCache).Nodup ∧ cacheFresh wCache ∧
      getLatestReferenceMonth stA = some 19723) ∧
    ((getDepreciationAnalysis stA 0 wCache 12 none).2.entries.length ≤ 10 ∧
      (cacheKeys (getDepreciationAnalysis stA 0 wCache 12 none).2).Nodup ∧
      cacheFresh (getDepreciationAnalysis stA 0 wCache 12 none).2 ∧
      (∀ r, (getDepreciationAnalysis stA 0 wCache 12 none).1 = .ok r →
        r.end_date = 19723) ∧
      (cacheFind wCache.entries (19723, 12, none) = none →
        wCache.entries.length = 10 → ¬((12 : ℤ) < 1 ∨ 60 < (12 : ℤ)) →
        (∀ x, (none : Option Int) = some x → 0 < x) →
        (getDepreciationAnalysis stA 0 wCache 12 none).2.entries =
          ((19723, 12, none),
            calculateDepreciationAnalysis stA 0 (19723 - 30 * 12) 19723 none) ::
            wCache.entries.dropLast)) :=
  ⟨⟨by decide, by decide, by unfold cacheFresh; decide, rfl⟩,
    analysis_cache_bound_lru_fresh stA 0 wCache 12 none 19723 (by decide)
      (by decide) (by unfold cacheFresh; decide) rfl⟩

/-! ### C5: age-bucket rows -/

theorem yearGroup_mem (desc : String) :
    yearGroup desc ∈ ["2020-2024", "2015-2019", "2010-2014", "2005-2009", "<2005"] := by
  simp only [yearGroup]
  split_ifs <;> simp

/-- C5 counterexample: with a `"2004 Gas"` variant and a `"2020 Flex"`
variant both qualifying, descending ordinal label order places `"<2005"`
first (byte `<` sorts above the digits), so the newest bucket is not first. -/
theorem year_group_order_counterexample :
    ∃ r, computeReportCold stY 0 1 none = .ok r ∧
      (r.year_groups.map fun g => g.year_range) = ["<2005", "2020-2024"] :=
  ⟨calculateDepreciationAnalysis stY 0 (130 - 30 * 1) 130 none, rfl, rfl⟩

/-- C5 amended: the age-bucket rows group the qualifying variants by the
bucket of the integer value of the first 4 characters of the description
with no minimum-sample filter (every qualifying variant's bucket is
present, with the distinct-variant count and mean rate of its group), and
the rows are sorted by bucket label descending — which places `"<2005"`
first when present, and the newest bucket first otherwise. -/
theorem year_group_rows_property (s : Store) (now m d : Int)
    (hm1 : 1 ≤ m) (hm2 : m ≤ 60) (hd : getLatestReferenceMonth s = some d)
    (r : Report) (hr : computeReportCold s now m none = .ok r) :
    (∀ y ∈ s.years, qualifies s (d - 30 * m) d y.id = true →
      ∃ row ∈ r.year_groups, row.year_range = yearGroup y.year_description ∧
        1 ≤ row.sample_size) ∧
    (∀ row ∈ r.year_groups,
      row.sample_size =
        ((s.years.filter fun y => qualifies s (d - 30 * m) d y.id &&
            (yearGroup y.year_description == row.year_range)).map
          fun y => y.id).toFinset.card ∧
      row.avg_rate = meanQ ((s.years.filter fun y =>
          qualifies s (d - 30 * m) d y.id &&
            (yearGroup y.year_description == row.year_range)).map
        fun y => rateOf s (d - 30 * m) d y.id) ∧
      row.year_range ∈ ["2020-2024", "2015-2019", "2010-2014", "2005-2009", "<2005"]) ∧
    ((r.year_groups.map fun g => g.year_range).Pairwise
      fun a b => strLt b a = true) := by
  have hrept : r = calculateDepreciationAnalysis s now (d - 30 * m) d none := by
    have := computeReportCold_none_eq s now m d hm1 hm2 hd
    rw [hr] at this
    exact (ReportResult.ok.injEq _ _ ▸ this : _)
  have hyg : r.year_groups = calculateYearGroupDepreciation s (d - 30 * m) d := by
    rw [hrept]
    rfl
  have hgroup : ∀ lab,
      (yearGroupQualYears s (d - 30 * m) d).filter
          (fun y => yearGroup y.year_description == lab) =
        s.years.filter fun y => qualifies s (d - 30 * m) d y.id &&
          (yearGroup y.year_description == lab) := by
    intro lab
    unfold yearGroupQualYears
    rw [List.filter_filter]
    exact List.filter_congr fun y _ => Bool.and_comm _ _
  refine ⟨?_, ?_, ?_⟩
  · intro y hy hq
    rw [hyg]
    unfold calculateYearGroupDepreciation
    have hyvs : y ∈ yearGroupQualYears s (d - 30 * m) d :=
      List.mem_filter.2 ⟨hy, hq⟩
    have hlab : yearGroup y.year_description ∈
        sortStrDesc (pyDedup ((yearGroupQualYears s (d - 30 * m) d).map
          fun y2 => yearGroup y2.year_description)) := by
      refine (List.perm_insertionSort strDescRel _).mem_iff.2 ?_
      exact (mem_pyDedup _ _).2 (List.mem_map_of_mem _ hyvs)
    refine ⟨_, List.mem_map_of_mem _ hlab, rfl, ?_⟩
    have hymem : y.id ∈ pyDedup (((yearGroupQualYears s (d - 30 * m) d).filter
        (fun y2 => yearGroup y2.year_description ==
          yearGroup y.year_description)).map fun y2 => y2.id) := by
      refine (mem_pyDedup _ _).2 (List.mem_map_of_mem _ ?_)
      exact List.mem_filter.2 ⟨hyvs, by simp⟩
    exact List.length_pos.2 (List.ne_nil_of_mem hymem)
  · intro row hrow
    rw [hyg] at hrow
    unfold calculateYearGroupDepreciation at hrow
    rcases List.mem_map.1 hrow with ⟨lab, hlabmem, hroweq⟩
    have hlab5 : lab ∈ ["2020-2024", "2015-2019", "2010-2014", "2005-2009", "<2005"] := by
      have : lab ∈ pyDedup ((yearGroupQualYears s (d - 30 * m) d).map
          fun y2 => yearGroup y2.year_description) :=
        (List.perm_insertionSort strDescRel _).mem_iff.1 hlabmem
      rcases List.mem_map.1 ((mem_pyDedup _ _).1 this) with ⟨y2, _, hy2⟩
      exact hy2 ▸ yearGroup_mem y2.year_description
    subst hroweq
    refine ⟨?_, ?_, hlab5⟩
    · have hcount : (pyDedup (((yearGroupQualYears s (d - 30 * m) d).filter
          (fun y => yearGroup y.year_description == lab)).map
            fun y => y.id)).length =
          ((s.years.filter fun y => qualifies s (d - 30 * m) d y.id &&
            (yearGroup y.year_description == lab)).map fun y => y.id).toFinset.card := by
        rw [hgroup lab, pyDedup_length]
      exact hcount
    · have havg : meanQ (((yearGroupQualYears s (d - 30 * m) d).filter
          (fun y => yearGroup y.year_description == lab)).map
            fun y => rateOf s (d - 30 * m) d y.id) =
          meanQ ((s.years.filter fun y => qualifies s (d - 30 * m) d y.id &&
            (yearGroup y.year_description == lab)).map
              fun y => rateOf s (d - 30 * m) d y.id) := by
        rw [hgroup lab]
      exact havg
  · rw [hyg]
    unfold calculateYearGroupDepreciation
    rw [List.map_map]
    have : ((fun g : YearGroupRowR => g.year_range) ∘ fun lab =>
        (⟨lab, (pyDedup (((yearGroupQualYears s (d - 30 * m) d).filter
            (fun y => yearGroup y.year_description == lab)).map
          fun y => y.id)).length,
          meanQ (((yearGroupQualYears s (d - 30 * m) d).filter
              (fun y => yearGroup y.year_description == lab)).map
            fun y => rateOf s (d - 30 * m) d y.id)⟩ : YearGroupRowR)) =
        fun lab => lab := rfl
    rw [this]
    simpa using sortStrDesc_strict (pyDedup_nodup
      ((yearGroupQualYears s (d - 30 * m) d).map fun y => yearGroup y.year_description))

/-- Witness for C5 on the two-bucket store with a one-month window. -/
theorem year_group_rows_property_witness :
    (1 ≤ (1 : ℤ) ∧ (1 : ℤ) ≤ 60 ∧ getLatestReferenceMonth stY = some 130 ∧
      computeReportCold stY 0 1 none =
        .ok (calculateDepreciationAnalysis stY 0 (130 - 30 * 1) 130 none)) ∧
    (((calculateDepreciationAnalysis stY 0 (130 - 30 * 1) 130
        none).year_groups.map fun g => g.year_range).Pairwise
      fun a b => strLt b a = true) :=
  ⟨⟨by decide, by decide, rfl, rfl⟩,
    (year_group_rows_property stY 0 1 130 (by decide) (by decide) rfl
      (calculateDepreciationAnalysis stY 0 (130 - 30 * 1) 130 none) rfl).2.2⟩

/-! ### C2: brand rows -/

theorem any_congr_mem {α : Type} {l : List α} {p q : α → Bool}
    (h : ∀ x ∈ l, p x = q x) : l.any p = l.any q := by
  induction l with
  | nil => rfl
  | cons x l ih =>
      simp only [List.any_cons, h x (List.mem_cons_self x l),
        ih fun y hy => h y (List.mem_cons_of_mem x hy)]

theorem filter_or_perm {α : Type} (l : List α) (p q : α → Bool)
    (hdisj : ∀ x ∈ l, ¬(p x = true ∧ q x = true)) :
    List.Perm (l.filter fun x => p x || q x) (l.filter p ++ l.filter q) := by
  induction l with
  | nil => simp
  | cons x l ih =>
      have ihl := ih fun y hy => hdisj y (List.mem_cons_of_mem x hy)
      by_cases hp : p x = true
      · have hq : q x = false := by
          cases hqc : q x with
          | false => rfl
          | true => exact absurd ⟨hp, hqc⟩ (hdisj x (List.mem_cons_self x l))
        simp only [List.filter_cons, hp, hq, Bool.true_or, if_pos]
        exact ihl.cons x
      · have hp2 : p x = false := Bool.eq_false_iff.2 hp
        by_cases hqx : q x = true
        · simp only [List.filter_cons, hp2, hqx, Bool.false_or, if_pos, if_neg,
            Bool.false_eq_true, not_false_eq_true]
          exact (ihl.cons x).trans List.perm_middle.symm
        · have hq2 : q x = false := Bool.eq_false_iff.2 hqx
          simp only [List.filter_cons, hp2, hq2, Bool.false_or, if_neg,
            Bool.false_eq_true, not_false_eq_true]
          exact ihl

theorem flatMap_qual_perm (vs : List ModelYear) (q : ModelYear → Bool) :
    ∀ ms : List CarModel, (ms.map fun mo => mo.id).Nodup →
    List.Perm
      (ms.flatMap fun mo => vs.filter fun y => y.car_model_id == mo.id && q y)
      (vs.filter fun y => (ms.any fun mo => y.car_model_id == mo.id) && q y) := by
  intro ms
  induction ms with
  | nil => intro _; simp
  | cons mo ms ih =>
      intro hnd
      rw [List.map_cons] at hnd
      have hcons := List.nodup_cons.1 hnd
      have hnd2 : (ms.map fun mo2 => mo2.id).Nodup := hcons.2
      have hnotin : mo.id ∉ ms.map fun mo2 => mo2.id := hcons.1
      have hstep : (vs.filter fun y =>
          ((mo :: ms).any fun mo2 => y.car_model_id == mo2.id) && q y) =
          vs.filter fun y => (y.car_model_id == mo.id && q y) ||
            ((ms.any fun mo2 => y.car_model_id == mo2.id) && q y) := by
        apply List.filter_congr
        intro y _
        rw [List.any_cons, Bool.and_or_distrib_right]
      rw [List.flatMap_cons, hstep]
      have hdisj : ∀ y ∈ vs, ¬((y.car_model_id == mo.id && q y) = true ∧
          ((ms.any fun mo2 => y.car_model_id == mo2.id) && q y) = true) := by
        rintro y _ ⟨h1, h2⟩
        simp only [Bool.and_eq_true, beq_iff_eq, List.any_eq_true] at h1 h2
        rcases h2.1 with ⟨mo2, hmo2, hid⟩
        exact hnotin (List.mem_map.2 ⟨mo2, hmo2, by rw [← hid, ← h1.1]⟩)
      exact ((ih hnd2).append_left _).trans (filter_or_perm vs _ _ hdisj).symm

theorem brandJoinYears_perm (s : Store) (ws we : Int) (bid : Nat)
    (hM : (s.models.map fun mo => mo.id).Nodup) :
    List.Perm (brandJoinYears s ws we bid) (brandSpecYears s ws we bid) := by
  unfold brandJoinYears brandSpecYears modelQualYears
  exact flatMap_qual_perm s.years _ _
    (((List.filter_sublist s.models).map fun mo => mo.id).nodup hM)

theorem brandJoin_model_count (s : Store) (ws we : Int) (bid : Nat)
    (hM : (s.models.map fun mo => mo.id).Nodup) :
    (pyDedup ((brandJoinYears s ws we bid).map fun y => y.car_model_id)).length =
      brandQualModelCount s ws we bid := by
  rw [pyDedup_length]
  rw [List.toFinset_eq_of_perm _ _
    ((brandJoinYears_perm s ws we bid hM).map fun y => y.car_model_id)]
  unfold brandQualModelCount
  have hnodupf : ((s.models.filter fun mo => mo.brand_id == bid &&
      modelHasQualifying s ws we mo.id).map fun mo => mo.id).Nodup :=
    ((List.filter_sublist s.models).map fun mo => mo.id).nodup hM
  have hlen : (s.models.filter fun mo => mo.brand_id == bid &&
      modelHasQualifying s ws we mo.id).length =
      ((s.models.filter fun mo => mo.brand_id == bid &&
        modelHasQualifying s ws we mo.id).map fun mo => mo.id).toFinset.card := by
    rw [List.toFinset_card_of_nodup hnodupf, List.length_map]
  rw [hlen]
  congr 1
  apply List.toFinset.ext
  intro mid
  simp only [List.mem_map, brandSpecYears, modelHasQualifying, List.mem_filter,
    Bool.and_eq_true, List.any_eq_true, beq_iff_eq]
  constructor
  · rintro ⟨y, ⟨hy, ⟨mo, ⟨hmo2, hbid⟩, hymo⟩, hq⟩, hmid⟩
    exact ⟨mo, ⟨hmo2, hbid, y, hy, hymo, hq⟩, by rw [← hmid, hymo]⟩
  · rintro ⟨mo, ⟨hmo, hbid, y, hy, hymo, hq⟩, hmid⟩
    exact ⟨y, ⟨hy, ⟨mo, ⟨hmo, hbid⟩, hymo⟩, hq⟩, by rw [← hmid, hymo]⟩

theorem brandRow_eq_some {s : Store} {ws we : Int} {b : Brand} {row : BrandRowR}
    (h : brandRow s ws we b = some row) :
    row.brand_id = b.id ∧ 3 ≤ row.sample_size ∧
    row.sample_size =
      (pyDedup ((brandJoinYears s ws we b.id).map fun y => y.car_model_id)).length ∧
    row.avg_rate = meanQ ((brandJoinYears s ws we b.id).map
      fun y => rateOf s ws we y.id) := by
  simp only [brandRow] at h
  split at h
  · next h3 =>
      have hrow : row = ⟨b.id, b.brand_name,
          (pyDedup ((brandJoinYears s ws we b.id).map
            fun y => y.car_model_id)).length,
          meanQ ((brandJoinYears s ws we b.id).map
            fun y => rateOf s ws we y.id)⟩ := by
        simpa using h.symm
      subst hrow
      exact ⟨rfl, h3, rfl, rfl⟩
  · simp at h

theorem mem_calculateBrandDepreciation {s : Store} {ws we : Int} {row : BrandRowR} :
    row ∈ calculateBrandDepreciation s ws we ↔
      ∃ b ∈ s.brands, brandRow s ws we b = some row := by
  unfold calculateBrandDepreciation
  rw [(List.perm_insertionSort brandDescRel _).mem_iff]
  exact List.mem_filterMap

theorem removeModelPrices_models (s : Store) (mid : Nat) :
    (removeModelPrices s mid).models = s.models := rfl

theorem inWindowRows_remove_other (s : Store) (mid : Nat) (ws we : Int)
    {y : ModelYear} (hy : y ∈ s.years) (hne : y.car_model_id ≠ mid)
    (hV : (s.years.map fun y2 => y2.id).Nodup) :
    inWindowRows (removeModelPrices s mid) ws we y.id =
      inWindowRows s ws we y.id := by
  unfold inWindowRows removeModelPrices
  rw [List.filter_filter]
  congr 1
  apply List.filter_congr
  intro p hp
  by_cases hk : (s.years.any fun y2 =>
      y2.id == p.model_year_id && y2.car_model_id == mid) = true
  · rcases List.any_eq_true.1 hk with ⟨y2, hy2, hcond⟩
    simp only [Bool.and_eq_true, beq_iff_eq] at hcond
    have hpid : (p.model_year_id == y.id) = false := by
      refine beq_eq_false_iff_ne.2 ?_
      intro heq
      have hyy : y2 = y :=
        List.inj_on_of_nodup_map hV hy2 hy (by rw [hcond.1, heq])
      exact hne (by rw [← hyy]; exact hcond.2)
    simp [hk, hpid]
  · have hk2 := Bool.eq_false_iff.2 hk
    simp [hk2]

theorem qualifies_remove_other (s : Store) (mid : Nat) (ws we : Int)
    {y : ModelYear} (hy : y ∈ s.years) (hne : y.car_model_id ≠ mid)
    (hV : (s.years.map fun y2 => y2.id).Nodup) :
    qualifies (removeModelPrices s mid) ws we y.id = qualifies s ws we y.id := by
  unfold qualifies
  simp only [variantObs]
  rw [inWindowRows_remove_other s mid ws we hy hne hV]

theorem inWindowRows_remove_own (s : Store) (mid : Nat) (ws we : Int)
    {y : ModelYear} (hy : y ∈ s.years) (hcm : y.car_model_id = mid) :
    inWindowRows (removeModelPrices s mid) ws we y.id = [] := by
  unfold inWindowRows removeModelPrices
  rw [List.filter_filter]
  have hnil : (s.prices.filter fun p =>
      ((p.model_year_id == y.id && decide (ws ≤ p.month_date)) &&
        decide (p.month_date ≤ we)) &&
      !(s.years.any fun y2 =>
        y2.id == p.model_year_id && y2.car_model_id == mid)) = [] := by
    refine List.filter_eq_nil_iff.2 ?_
    intro p hp hcontra
    simp only [Bool.and_eq_true, Bool.not_eq_eq_eq_not, Bool.not_true,
      List.any_eq_false, beq_iff_eq] at hcontra
    exact hcontra.2 y hy ⟨hcontra.1.1.1.symm, hcm⟩
  rw [hnil]
  rfl

theorem qualifies_remove_own (s : Store) (mid : Nat) (ws we : Int)
    {y : ModelYear} (hy : y ∈ s.years) (hcm : y.car_model_id = mid) :
    qualifies (removeModelPrices s mid) ws we y.id = false := by
  unfold qualifies
  simp only [variantObs]
  rw [inWindowRows_remove_own s mid ws we hy hcm]
  rfl

theorem modelHasQualifying_remove_own (s : Store) (ws we : Int) (mid : Nat)
    (hV : (s.years.map fun y2 => y2.id).Nodup) :
    modelHasQualifying (removeModelPrices s mid) ws we mid = false := by
  unfold modelHasQualifying
  rw [List.any_eq_false]
  intro y hy hcontra
  simp only [Bool.and_eq_true, beq_iff_eq] at hcontra
  rw [qualifies_remove_own s mid ws we hy hcontra.1] at hcontra
  exact absurd hcontra.2 (by simp)

theorem modelHasQualifying_remove_other (s : Store) (ws we : Int)
    (mid mid2 : Nat) (hne : mid2 ≠ mid)
    (hV : (s.years.map fun y2 => y2.id).Nodup) :
    modelHasQualifying (removeModelPrices s mid) ws we mid2 =
      modelHasQualifying s ws we mid2 := by
  unfold modelHasQualifying
  apply any_congr_mem
  intro y hy
  by_cases hcm : (y.car_model_id == mid2) = true
  · have hyne : y.car_model_id ≠ mid := by
      rw [beq_iff_eq] at hcm
      rw [hcm]
      exact hne
    rw [qualifies_remove_other s mid ws we hy hyne hV]
  · have hcm2 := Bool.eq_false_iff.2 hcm
    rw [hcm2]
    simp

theorem brandQualModelCount_remove (s : Store) (ws we : Int) (bid : Nat)
    (mo : CarModel) (hmo : mo ∈ s.models) (hbid : mo.brand_id = bid)
    (hqual : modelHasQualifying s ws we mo.id = true)
    (hM : (s.models.map fun mo2 => mo2.id).Nodup)
    (hV : (s.years.map fun y2 => y2.id).Nodup) :
    brandQualModelCount (removeModelPrices s mo.id) ws we bid =
      brandQualModelCount s ws we bid - 1 := by
  unfold brandQualModelCount
  rw [removeModelPrices_models]
  have hcongr : (s.models.filter fun mo2 => mo2.brand_id == bid &&
      modelHasQualifying (removeModelPrices s mo.id) ws we mo2.id) =
      ((s.models.filter fun mo2 => mo2.brand_id == bid &&
        modelHasQualifying s ws we mo2.id).filter
          fun mo2 => !(mo2.id == mo.id)) := by
    rw [List.filter_filter]
    apply List.filter_congr
    intro mo2 hmo2
    by_cases hid : mo2.id = mo.id
    · have heq : mo2 = mo := List.inj_on_of_nodup_map hM hmo2 hmo hid
      rw [heq]
      simp [modelHasQualifying_remove_own s ws we mo.id hV]
    · have hidb : (mo2.id == mo.id) = false := beq_eq_false_iff_ne.2 hid
      rw [modelHasQualifying_remove_other s ws we mo.id mo2.id hid hV, hidb]
      simp
  rw [hcongr]
  have hmol : mo ∈ s.models.filter fun mo2 => mo2.brand_id == bid &&
      modelHasQualifying s ws we mo2.id :=
    List.mem_filter.2 ⟨hmo, by simp [hbid, hqual]⟩
  have hlnodup : (s.models.filter fun mo2 => mo2.brand_id == bid &&
      modelHasQualifying s ws we mo2.id).Nodup :=
    (List.filter_sublist s.models).nodup (List.Nodup.of_map _ hM)
  have hfe : ((s.models.filter fun mo2 => mo2.brand_id == bid &&
      modelHasQualifying s ws we mo2.id).filter fun mo2 => !(mo2.id == mo.id)) =
      ((s.models.filter fun mo2 => mo2.brand_id == bid &&
        modelHasQualifying s ws we mo2.id).filter fun mo2 => mo2 != mo) := by
    apply List.filter_congr
    intro mo2 hmo2l
    have hmo2s : mo2 ∈ s.models := (List.mem_filter.1 hmo2l).1
    by_cases hid : mo2.id = mo.id
    · have heq : mo2 = mo := List.inj_on_of_nodup_map hM hmo2s hmo hid
      rw [heq]
      simp
    · have hne2 : mo2 ≠ mo := fun hq => hid (by rw [hq])
      have hidb : (mo2.id == mo.id) = false := beq_eq_false_iff_ne.2 hid
      have hneb : (mo2 != mo) = true := by
        simp [bne_iff_ne, hne2]
      rw [hidb, hneb]
      rfl
  rw [hfe, ← List.Nodup.erase_eq_filter hlnodup mo, List.length_erase_of_mem hmol]

set_option maxHeartbeats 1600000 in
/-- C2: a brand row never has fewer than 3 qualifying distinct models; its
sample size counts the brand's distinct qualifying models (not variants);
its average is the mean of the annualized rates over the brand's qualifying
variants; and removing the only price-point pair of one model of a brand
with exactly 3 qualifying models removes that brand from the output. -/
theorem brand_rows_property (s : Store) (now m d : Int)
    (hm1 : 1 ≤ m) (hm2 : m ≤ 60) (hd : getLatestReferenceMonth s = some d)
    (hB : (s.brands.map fun b => b.id).Nodup)
    (hM : (s.models.map fun mo => mo.id).Nodup)
    (hV : (s.years.map fun y2 => y2.id).Nodup)
    (r : Report) (hr : computeReportCold s now m none = .ok r) :
    (∀ row ∈ r.brands,
      3 ≤ row.sample_size ∧
      ∃ b ∈ s.brands, row.brand_id = b.id ∧
        row.sample_size = brandQualModelCount s (d - 30 * m) d b.id ∧
        row.avg_rate = meanQ ((brandSpecYears s (d - 30 * m) d b.id).map
          fun y => rateOf s (d - 30 * m) d y.id)) ∧
    (∀ b ∈ s.brands, ∀ mo ∈ s.models, mo.brand_id = b.id →
      brandQualModelCount s (d - 30 * m) d b.id = 3 →
      modelHasQualifying s (d - 30 * m) d mo.id = true →
      ∀ r2, computeReportCold (removeModelPrices s mo.id) now m none = .ok r2 →
        ∀ row ∈ r2.brands, row.brand_id ≠ b.id) := by
  have hrept : r = calculateDepreciationAnalysis s now (d - 30 * m) d none := by
    have := computeReportCold_none_eq s now m d hm1 hm2 hd
    rw [hr] at this
    exact (ReportResult.ok.injEq _ _ ▸ this : _)
  have hbr : r.brands = calculateBrandDepreciation s (d - 30 * m) d := by
    rw [hrept]
    rfl
  constructor
  · intro row hrow
    rw [hbr] at hrow
    rcases mem_calculateBrandDepreciation.1 hrow with ⟨b, hb, hbrow⟩
    rcases brandRow_eq_some hbrow with ⟨h1, h2, h3, h4⟩
    refine ⟨h2, b, hb, h1, ?_, ?_⟩
    · rw [h3, brandJoin_model_count s (d - 30 * m) d b.id hM]
    · rw [h4]
      exact meanQ_perm ((brandJoinYears_perm s (d - 30 * m) d b.id hM).map
        fun y => rateOf s (d - 30 * m) d y.id)
  · intro b hb mo hmo hbid hcount hqual r2 hr2 row hrow heq
    have hd2 : getLatestReferenceMonth (removeModelPrices s mo.id) = some d := by
      simpa [getLatestReferenceMonth, removeModelPrices] using hd
    have hrept2 : r2 = calculateDepreciationAnalysis (removeModelPrices s mo.id)
        now (d - 30 * m) d none := by
      have h2 := computeReportCold_none_eq (removeModelPrices s mo.id) now m d hm1 hm2 hd2
      rw [hr2] at h2
      exact ReportResult.ok.inj h2
    have hbr2 : r2.brands =
        calculateBrandDepreciation (removeModelPrices s mo.id) (d - 30 * m) d := by
      rw [hrept2]
      rfl
    rw [hbr2] at hrow
    rcases mem_calculateBrandDepreciation.1 hrow with ⟨b2, hb2, hbrow2⟩
    rcases brandRow_eq_some hbrow2 with ⟨g1, g2, g3, g4⟩
    have hbeq : b2 = b :=
      List.inj_on_of_nodup_map hB hb2 hb (by rw [← g1, heq])
    rw [hbeq] at g3
    rw [g3, brandJoin_model_count (removeModelPrices s mo.id) (d - 30 * m) d
      b.id hM] at g2
    rw [brandQualModelCount_remove s (d - 30 * m) d b.id mo hmo hbid hqual hM hV,
      hcount] at g2
    omega

/-- Witness for C2 on the Scenario-A store with a 13-month window (all
three models of the brand qualify there). -/
theorem brand_rows_property_witness :
    ((1 : ℤ) ≤ 13 ∧ (13 : ℤ) ≤ 60 ∧ getLatestReferenceMonth stA = some 19723 ∧
      (stA.brands.map fun b => b.id).Nodup ∧
      (stA.models.map fun mo => mo.id).Nodup ∧
      (stA.years.map fun y2 => y2.id).Nodup ∧
      computeReportCold stA 0 13 none =
        .ok (calculateDepreciationAnalysis stA 0 (19723 - 30 * 13) 19723 none)) ∧
    (∀ row ∈ (calculateDepreciationAnalysis stA 0 (19723 - 30 * 13) 19723
        none).brands, 3 ≤ row.sample_size) :=
  ⟨⟨by decide, by decide, rfl, by decide, by decide, by decide, rfl⟩,
    fun row hrow =>
      ((brand_rows_property stA 0 13 19723 (by decide) (by decide) rfl
        (by decide) (by decide) (by decide) _ rfl).1 row hrow).1⟩

end Fipe
